import Mathlib

set_option maxHeartbeats 1000000

/-!
Shallow embedding of the pdf-api repository's core modules:
`app/core/converter.py` (PDF text → applicant record extraction) and
`app/core/cv_maker.py` (CV JSON → document rendering), together with
proofs about the properties the specification states for them.

Python strings are modelled as `List Char`; Python regular-expression
searches are modelled by explicit position-by-position matchers for the
two concrete patterns the code builds; `dict`s are association lists;
exceptions are `Except` values.
-/

namespace PdfApi

abbrev Chars := List Char

/-- Coerce a Lean string literal to the character-list representation. -/
def lc (s : String) : Chars := s.data

/-- The characters matched by the regex class `[ \t]` in `_SPACE_BEFORE_NL`. -/
def isHTab (c : Char) : Bool := c = ' ' ∨ c = '\t'

/-- Horizontal whitespace: the regex class `[^\S\r\n]` (whitespace minus `\r`, `\n`). -/
def isHWS (c : Char) : Bool := c = ' ' ∨ c = '\t' ∨ c = '\x0b' ∨ c = '\x0c'

/-- The characters matched by the regex class `\s` (ASCII range). -/
def isPyWs (c : Char) : Bool := isHWS c ∨ c = '\n' ∨ c = '\r'

/-- ASCII lowering, modelling `re.IGNORECASE` comparison and `str.lower`. -/
def lowerC (c : Char) : Char :=
  if 'A' ≤ c ∧ c ≤ 'Z' then Char.ofNat (c.toNat + 32) else c

def lowerL (l : Chars) : Chars := l.map lowerC

/-- Strip characters satisfying `p` from both ends (Python `str.strip`). -/
def stripWith (p : Char → Bool) (l : Chars) : Chars :=
  ((l.dropWhile p).reverse.dropWhile p).reverse

/-- Python `str.strip()` with no argument: strips whitespace. -/
def pyStrip : Chars → Chars := stripWith isPyWs

/-! ### `_clean_text` (converter.py lines 15-22)

`_LINE_BREAKS = re.compile(r"\r\n?")` substituted by `"\n"`, then
`_SPACE_BEFORE_NL = re.compile(r"[ \t]+\n")` substituted by `"\n"`. -/

/-- Global substitution of `\r\n?` by `\n`. -/
def subCR : Chars → Chars
  | [] => []
  | [c] => if c = '\r' then ['\n'] else [c]
  | c1 :: c2 :: rest =>
    if c1 = '\r' then
      if c2 = '\n' then '\n' :: subCR rest else '\n' :: subCR (c2 :: rest)
    else c1 :: subCR (c2 :: rest)

/-- Global substitution of `[ \t]+\n` by `\n`: a space or tab is deleted
exactly when every character between it and the next non-`[ \t]` character
is a space or tab and that next character is `\n`. -/
def stripSp : Chars → Chars
  | [] => []
  | c :: rest =>
    if isHTab c ∧ (stripSp rest).head? = some '\n' then stripSp rest
    else c :: stripSp rest

/-- `_clean_text`: collapse line-break variants, then strip horizontal
whitespace immediately before a line feed. -/
def clean_text (l : Chars) : Chars := stripSp (subCR l)

/-! ### `_find_value` (converter.py lines 25-34)

Pattern A (inline): `{label}[^\S\r\n]*\.?\s*:\s*(.+)` with `re.I`.
Pattern B (next line): `{label}[^\S\r\n]*\n(.+)` with `re.I`.
`re.search` scans start positions left to right; at a given start the
matchers below reproduce the backtracking outcome of the engine. -/

/-- The maximal run of non-`\n` characters: what a greedy `(.+)` captures
(the pattern is compiled without `DOTALL`). -/
def untilNL : Chars → Chars
  | [] => []
  | c :: cs => if c = '\n' then [] else c :: untilNL cs

/-- Matcher for the part of pattern B after the literal label:
`[^\S\r\n]*\n(.+)`, returning the captured group. -/
def matchNextAfter : Chars → Option Chars
  | [] => none
  | c :: cs =>
    if isHWS c then matchNextAfter cs
    else if c = '\n' then
      match cs with
      | [] => none
      | d :: _ => if d = '\n' then none else some (untilNL cs)
    else none

/-- Attempt pattern B at start position `i` of `text`. -/
def matchNextAt (text label : Chars) (i : Nat) : Option Chars :=
  let s := text.drop i
  if lowerL (s.take label.length) = lowerL label then matchNextAfter (s.drop label.length)
  else none

/-- Matcher for `\s*(.+)` after the colon of pattern A: the greedy
whitespace run is shortened from the right until `.+` can match. -/
def valueGroup (s : Chars) : Option Chars :=
  match s.dropWhile isPyWs with
  | c :: cs => some (untilNL (c :: cs))
  | [] =>
    match s.reverse.dropWhile (fun x => x = '\n') with
    | c :: _ => some [c]
    | [] => none

/-- Matcher for `:\s*(.+)`. -/
def colonThen : Chars → Option Chars
  | ':' :: s => valueGroup s
  | _ => none

/-- Matcher for `[^\S\r\n]*\.?\s*:\s*(.+)` after the literal label.
When a dot follows the horizontal-whitespace run the engine commits to the
`\.` branch; otherwise `\.?` matches empty and `\s*` runs to the colon. -/
def inlineAfter (s : Chars) : Option Chars :=
  match s.dropWhile isHWS with
  | '.' :: s2 => colonThen (s2.dropWhile isPyWs)
  | s1 => colonThen (s1.dropWhile isPyWs)

/-- Attempt pattern A at start position `i` of `text`. -/
def matchInlineAt (text label : Chars) (i : Nat) : Option Chars :=
  let s := text.drop i
  if lowerL (s.take label.length) = lowerL label then inlineAfter (s.drop label.length)
  else none

/-- Leftmost-match scan: try `f i`, `f (i+1)`, ... while fuel lasts. -/
def searchAux (f : Nat → Option Chars) : Nat → Nat → Option Chars
  | _, 0 => none
  | i, fuel + 1 =>
    match f i with
    | some v => some v
    | none => searchAux f (i + 1) fuel

/-- `re.search(pat_inline, text, re.I)`, returning the captured group. -/
def searchInline (text label : Chars) : Option Chars :=
  searchAux (matchInlineAt text label) 0 (text.length + 1)

/-- `re.search(pat_next, text, re.I)`, returning the captured group. -/
def searchNext (text label : Chars) : Option Chars :=
  searchAux (matchNextAt text label) 0 (text.length + 1)

/-- `_find_value(text, label, default)`. -/
def find_value (text label dflt : Chars) : Chars :=
  match searchInline text label with
  | some g => pyStrip g
  | none =>
    match searchNext text label with
    | some g => pyStrip g
    | none => dflt

/-! ### `_extract_employment` (converter.py lines 37-67) -/

/-- One employment record, mirroring the dict literal built by the code. -/
structure Job where
  employer : Chars
  job_description : Chars
  start_date : Chars
  end_date : Chars
  contact_name : Chars
deriving DecidableEq

/-- Literal leading-substring test used by `splitFirst`. -/
def leadsWith : Chars → Chars → Bool
  | [], _ => true
  | _ :: _, [] => false
  | a :: as, b :: bs => a = b && leadsWith as bs

/-- Python `text.split(pat, 1)` when `pat` occurs: returns the parts before
and after the first occurrence; `none` when `pat` does not occur. -/
def splitFirst (pat : Chars) : Chars → Option (Chars × Chars)
  | [] => if pat = [] then some ([], []) else none
  | c :: rest =>
    if leadsWith pat (c :: rest) then some ([], (c :: rest).drop pat.length)
    else (splitFirst pat rest).map (fun p => (c :: p.1, p.2))

/-- Membership test for `pat in text`. -/
def hasSubstr (pat text : Chars) : Bool := (splitFirst pat text).isSome

/-- Line-break characters recognised by Python `str.splitlines`
(other than the combined `\r\n`). -/
def isLineBreak (c : Char) : Bool :=
  c = '\n' ∨ c = '\r' ∨ c = '\x0b' ∨ c = '\x0c' ∨ c = '\x1c' ∨ c = '\x1d' ∨
  c = '\x1e' ∨ c = '\u0085' ∨ c = '\u2028' ∨ c = '\u2029'

/-- Python `str.splitlines` worker; the first argument is the reversed
current line. -/
def splitLinesAux : Chars → Chars → List Chars
  | cur, [] => [cur.reverse]
  | cur, '\r' :: '\n' :: r2 =>
    if r2 = [] then [cur.reverse] else cur.reverse :: splitLinesAux [] r2
  | cur, c :: rest =>
    if isLineBreak c then
      if rest = [] then [cur.reverse] else cur.reverse :: splitLinesAux [] rest
    else splitLinesAux (c :: cur) rest

/-- Python `str.splitlines`. -/
def splitLines (l : Chars) : List Chars :=
  match l with
  | [] => []
  | _ => splitLinesAux [] l

/-- `[ln.strip() for ln in block.splitlines() if ln.strip()]`. -/
def employmentLines (block : Chars) : List Chars :=
  ((splitLines block).map pyStrip).filter (fun l => !l.isEmpty)

/-- `lines.index(x)` (first index of an exactly equal element). -/
def idxOf (x : Chars) : List Chars → Option Nat
  | [] => none
  | y :: ys => if y = x then some 0 else (idxOf x ys).map (· + 1)

/-- `lines[header_end + 1:]` when the `"Contact Name"` header is found,
otherwise the whole line list (the `except ValueError` fallback). -/
def dataLines (lines : List Chars) : List Chars :=
  match idxOf (lc "Contact Name") lines with
  | some i => lines.drop (i + 1)
  | none => lines

/-- The chunking loop: `for i in range(0, len(data_lines), 5)` keeping only
complete groups of five lines. -/
def chunkJobs : List Chars → List Job
  | e :: j :: s :: en :: c :: rest =>
    { employer := e, job_description := j, start_date := s,
      end_date := en, contact_name := c } :: chunkJobs rest
  | _ => []

/-- The text after the first `"Employer"`, truncated at `"Employment List"`;
`none` when `"Employer"` is absent. -/
def employmentBlock (text : Chars) : Option Chars :=
  (splitFirst (lc "Employer") text).map (fun p =>
    match splitFirst (lc "Employment List") p.2 with
    | some q => q.1
    | none => p.2)

/-- The non-empty stripped lines the function works on. -/
def employmentLinesOf (text : Chars) : List Chars :=
  match employmentBlock text with
  | some b => employmentLines b
  | none => []

/-- The data region: the lines after the `"Contact Name"` header. -/
def employmentDataOf (text : Chars) : List Chars :=
  match employmentBlock text with
  | some b => dataLines (employmentLines b)
  | none => []

/-- `_extract_employment(text)`. -/
def extract_employment (text : Chars) : List Job :=
  match employmentBlock text with
  | none => []
  | some blk =>
    let dls := dataLines (employmentLines blk)
    match dls with
    | [] => []
    | l :: _ =>
      if lowerL l = lowerL (lc "No Records Found") then [] else chunkJobs dls

/-! ### `_extract_info` (converter.py lines 70-97) -/

/-- A value of the result mapping: a scalar string, the nested permanent
address mapping, or the employment list. -/
inductive FVal where
  | s (v : Chars)
  | addr (kvs : List (String × Chars))
  | emp (js : List Job)
deriving DecidableEq

/-- First-match association-list lookup (Python dict access). -/
def assoc (k : String) : List (String × α) → Option α
  | [] => none
  | (a, b) :: rest => if a = k then some b else assoc k rest

/-- The scalar fields of the record with their label constants. -/
def scalarPairs : List (String × Chars) :=
  [("application_ref", lc "Application Ref"),
   ("title", lc "Title"),
   ("first_name", lc "First Name"),
   ("middle_name", lc "Middle Name"),
   ("last_name", lc "Last Name"),
   ("dob", lc "Date of Birth"),
   ("email", lc "Email Address"),
   ("mobile", lc "Mobile"),
   ("nationality", lc "Nationality"),
   ("program", lc "Program"),
   ("intake", lc "Intake"),
   ("campus", lc "Campus"),
   ("term_postcode", lc "Term time Postcode"),
   ("fee_payer", lc "Who will pay your fees?"),
   ("previous_loan", lc "Have you previously received a student loan?"),
   ("reference_name", lc "Reference 1 Name"),
   ("reference_email", lc "Reference 1 Email/Mobile")]

/-- The nested permanent-address fields with their label constants. -/
def addrPairs : List (String × Chars) :=
  [("address_line_1", lc "Address Line 1"),
   ("city", lc "City"),
   ("postcode", lc "Postcode"),
   ("country", lc "Country")]

/-- `_extract_info(text)`: the full payload in the key order of the source. -/
def extract_info (text : Chars) : List (String × FVal) :=
  [("application_ref", FVal.s (find_value text (lc "Application Ref") [])),
   ("title", FVal.s (find_value text (lc "Title") [])),
   ("first_name", FVal.s (find_value text (lc "First Name") [])),
   ("middle_name", FVal.s (find_value text (lc "Middle Name") [])),
   ("last_name", FVal.s (find_value text (lc "Last Name") [])),
   ("dob", FVal.s (find_value text (lc "Date of Birth") [])),
   ("email", FVal.s (find_value text (lc "Email Address") [])),
   ("mobile", FVal.s (find_value text (lc "Mobile") [])),
   ("nationality", FVal.s (find_value text (lc "Nationality") [])),
   ("program", FVal.s (find_value text (lc "Program") [])),
   ("intake", FVal.s (find_value text (lc "Intake") [])),
   ("campus", FVal.s (find_value text (lc "Campus") [])),
   ("term_postcode", FVal.s (find_value text (lc "Term time Postcode") [])),
   ("permanent_address", FVal.addr
     [("address_line_1", find_value text (lc "Address Line 1") []),
      ("city", find_value text (lc "City") []),
      ("postcode", find_value text (lc "Postcode") []),
      ("country", find_value text (lc "Country") [])]),
   ("fee_payer", FVal.s (find_value text (lc "Who will pay your fees?") [])),
   ("previous_loan", FVal.s
     (find_value text (lc "Have you previously received a student loan?") [])),
   ("reference_name", FVal.s (find_value text (lc "Reference 1 Name") [])),
   ("reference_email", FVal.s (find_value text (lc "Reference 1 Email/Mobile") [])),
   ("employment", FVal.emp (extract_employment text))]

/-! ## `cv_maker.py`: CV JSON → document rendering

The JSON payload is a Python value (`Val`); the produced document is the
trace of elements appended to it (`Elem`); Python exceptions raised while
rendering are `Except.error` values. The process-wide random style draw is
made explicit as a `Style` argument, and the `random.shuffle` of template
0 as an explicit key order; every theorem quantifies over them. -/

/-- A Python/JSON value as `cv_json_to_docx` sees it. -/
inductive Val where
  | vnone
  | str (s : Chars)
  | num (n : Int)
  | list (xs : List Val)
  | obj (kvs : List (String × Val))

/-- A Python exception escaping the renderer. -/
inductive RErr where
  | typeErr (msg : Chars)
  | keyErr (key : String)
  | attrErr (msg : Chars)
deriving DecidableEq

/-- One element appended to the document (headings carry whether a bottom
border was drawn and whether the shaded-template wrapper filled them). -/
inductive Elem where
  | nameHeading (text : Chars)
  | contactPara (text : Chars)
  | heading (text : Chars) (bordered : Bool) (shaded : Bool)
  | para (text : Chars)
  | table (rows cols : Nat) (content : List Elem)

/-- The style bundle drawn by `_rand_style()` (axes that influence the
trace; fonts, sizes and colours do not). -/
structure Style where
  font : Chars
  colour : Nat
  bullet : Chars
  divider : Chars
  headingsUpper : Bool
  nameAlignCenter : Bool
  showDividers : Bool
  border : Chars
  template : Nat
deriving DecidableEq

/-- Python truthiness of a `Val`. -/
def truthy : Val → Bool
  | .vnone => false
  | .str s => !s.isEmpty
  | .num n => n ≠ 0
  | .list xs => !xs.isEmpty
  | .obj kvs => !kvs.isEmpty

/-- Python `str()` of a value, as used inside f-strings (container values
never reach this point in the proofs below). -/
def pyStr : Val → Chars
  | .str s => s
  | .num n => (toString n).data
  | .vnone => lc "None"
  | .list _ => lc "[...]"
  | .obj _ => lc "dict"

/-- `payload.get(k)` on the top-level payload dict (default `None`). -/
def pget (p : List (String × Val)) (k : String) : Val :=
  (assoc k p).getD Val.vnone

/-- `payload.get(k, d)` on the top-level payload dict. -/
def pgetD (p : List (String × Val)) (k : String) (d : Val) : Val :=
  (assoc k p).getD d

/-- `v.get(k, d)`: dict method lookup; a non-dict raises `AttributeError`. -/
def vget (v : Val) (k : String) (d : Val) : Except RErr Val :=
  match v with
  | .obj kvs => .ok ((assoc k kvs).getD d)
  | _ => .error (.attrErr (lc "object has no attribute get"))

/-- `v[k]` subscription with a string key. -/
def pySub (v : Val) (k : String) : Except RErr Val :=
  match v with
  | .obj kvs =>
    match assoc k kvs with
    | some x => .ok x
    | none => .error (.keyErr k)
  | .str _ => .error (.typeErr (lc "string indices must be integers"))
  | _ => .error (.typeErr (lc "object is not subscriptable"))

/-- `for x in v`: lists yield elements, strings their characters, dicts
their keys; anything else raises `TypeError`. -/
def pyIter : Val → Except RErr (List Val)
  | .list xs => .ok xs
  | .str s => .ok (s.map fun c => .str [c])
  | .obj kvs => .ok (kvs.map fun kv => .str (lc kv.1))
  | _ => .error (.typeErr (lc "object is not iterable"))

/-- `len(v)`. -/
def pyLen : Val → Except RErr Nat
  | .list xs => .ok xs.length
  | .str s => .ok s.length
  | .obj kvs => .ok kvs.length
  | _ => .error (.typeErr (lc "object has no len"))

/-- `v[i]` subscription with an integer index. -/
def pyIndex : Val → Nat → Except RErr Val
  | .list xs, i =>
    match xs.get? i with
    | some x => .ok x
    | none => .error (.typeErr (lc "list index out of range"))
  | .str s, i =>
    match s.get? i with
    | some c => .ok (.str [c])
    | none => .error (.typeErr (lc "string index out of range"))
  | _, _ => .error (.typeErr (lc "object is not subscriptable"))

/-- Explicit `Except` sequencing (Python control flow: the first raised
exception aborts the call). -/
def bindE (x : Except RErr α) (f : α → Except RErr β) : Except RErr β :=
  match x with
  | .error e => .error e
  | .ok a => f a

/-- Error-aborting map over a list. -/
def mapME (f : α → Except RErr β) : List α → Except RErr (List β)
  | [] => .ok []
  | x :: xs => bindE (f x) fun y => bindE (mapME f xs) fun ys => .ok (y :: ys)

/-- `', '.flatten(filter(None, parts))`: keep truthy entries; `str.flatten`
raises `TypeError` on a non-string entry. -/
def joinTruthyStrs (sep : Chars) (parts : List Val) : Except RErr Chars :=
  bindE (mapME (fun v =>
      match v with
      | Val.str s => (.ok s : Except RErr Chars)
      | _ => .error (.typeErr (lc "sequence item: expected str instance")))
    (parts.filter truthy)) fun strs => .ok (List.intercalate sep strs)

/-! ### `_fmt_date` (cv_maker.py lines 54-57) and `_tl_dates` (101-113) -/

def digitVal (c : Char) : Nat := c.toNat - 48

/-- A decimal digit `0`-`9` (code points 48-57). -/
def isDigit (c : Char) : Bool := 48 ≤ c.toNat ∧ c.toNat ≤ 57

/-- A non-zero decimal digit `1`-`9` (code points 49-57). -/
def isDigit19 (c : Char) : Bool := 49 ≤ c.toNat ∧ c.toNat ≤ 57

/-- The month regex of `strptime`: `1[0-2]|0[1-9]|[1-9]`, anchored by the
unconverted-data check. -/
def parseMonth : Chars → Option Nat
  | [c] => if isDigit19 c then some (digitVal c) else none
  | [c1, c2] =>
    if c1 = '1' then
      if c2 = '0' then some 10 else if c2 = '1' then some 11
      else if c2 = '2' then some 12 else none
    else if c1 = '0' then
      if isDigit19 c2 then some (digitVal c2) else none
    else none
  | _ => none

/-- `datetime.strptime(s, '%Y-%m')`: exactly four digits, a dash, and a
month matching the month regex with nothing left over; year 0 is out of
range for `datetime`. -/
def parseYM : Chars → Option (Nat × Nat)
  | a :: b :: c :: d :: dash :: rest =>
    if dash = '-' ∧ isDigit a ∧ isDigit b ∧ isDigit c ∧ isDigit d then
      let y := ((digitVal a * 10 + digitVal b) * 10 + digitVal c) * 10 + digitVal d
      if y = 0 then none
      else (parseMonth rest).map fun m => (y, m)
    else none
  | _ => none

/-- `strftime('%b ...)` month abbreviations. -/
def monthAbbr : Nat → Chars
  | 1 => lc "Jan" | 2 => lc "Feb" | 3 => lc "Mar" | 4 => lc "Apr"
  | 5 => lc "May" | 6 => lc "Jun" | 7 => lc "Jul" | 8 => lc "Aug"
  | 9 => lc "Sep" | 10 => lc "Oct" | 11 => lc "Nov" | 12 => lc "Dec"
  | _ => []

/-- `strftime('%Y')`: the year in decimal without padding. -/
def yearRepr (y : Nat) : Chars := (Nat.repr y).data

/-- `_fmt_date(span)`: falsy → `'Present'`; a string parsed by `%Y-%m` →
abbreviated month and year; anything else (including non-strings, whose
`strptime` `TypeError` is swallowed by the bare `except`) is returned
unchanged. -/
def fmt_date (v : Val) : Val :=
  if truthy v = false then .str (lc "Present")
  else
    match v with
    | .str s =>
      match parseYM s with
      | some ym => .str (monthAbbr ym.2 ++ ' ' :: yearRepr ym.1)
      | none => .str s
    | _ => v

/-- `.strip(' –')` (space and EN DASH) applied by `_tl_dates`. -/
def stripDash : Chars → Chars := stripWith (fun c => c = ' ' ∨ c = '–')

/-- `_tl_dates(rec, start_k, end_k)`. -/
def tl_dates (rec : Val) (startK endK : String) : Except RErr Chars :=
  bindE (vget rec startK .vnone) fun s =>
  bindE (vget rec endK .vnone) fun e =>
  if truthy s = false ∧ truthy e = false then .ok []
  else
    let startTxt := if truthy s then pyStr (fmt_date s) else []
    let endTxt := if truthy e then pyStr (fmt_date e) else lc "Present"
    .ok (stripDash (startTxt ++ lc " – " ++ endTxt))

/-! ### Heading and section writers (cv_maker.py lines 61-189) -/

def isAsciiAlpha (c : Char) : Bool :=
  ('a' ≤ c ∧ c ≤ 'z') ∨ ('A' ≤ c ∧ c ≤ 'Z')

def upperC (c : Char) : Char :=
  if 'a' ≤ c ∧ c ≤ 'z' then Char.ofNat (c.toNat - 32) else c

/-- Python `str.title()` (ASCII letters): uppercase a letter after a
non-letter, lowercase one after a letter. -/
def pyTitleAux : Bool → Chars → Chars
  | _, [] => []
  | prevAlpha, c :: rest =>
    if isAsciiAlpha c then
      (if prevAlpha then lowerC c else upperC c) :: pyTitleAux true rest
    else c :: pyTitleAux false rest

def pyTitle (l : Chars) : Chars := pyTitleAux false l

/-- Python `str.upper()` (ASCII letters). -/
def pyUpper (l : Chars) : Chars := l.map upperC

/-- The text `_add_heading` renders: uppercased or title-cased per style. -/
def headingText (sty : Style) (t : Chars) : Chars :=
  if sty.headingsUpper then pyUpper t else pyTitle t

/-- `style.get('border') not in (None, '', 'none')`. -/
def hasBorder (b : Chars) : Bool := !(b = [] ∨ b = lc "none")

/-- `_add_heading(container, text, style)`. -/
def addHeading (sty : Style) (shaded : Bool) (t : Chars) : Elem :=
  .heading (headingText sty t) (hasBorder sty.border) shaded

/-- `_add_bullets(container, items, style)`. -/
def addBullets (sty : Style) (items : Val) : Except RErr (List Elem) :=
  bindE (pyIter items) fun xs =>
  .ok (xs.map fun line => Elem.para (sty.bullet ++ ' ' :: pyStr line))

/-- `_add_two_cols(container, items, style)`: a two-column balanced table
whose cells are filled in row-major order with `idx = r + c * n_rows`. -/
def addTwoCols (sty : Style) (items : Val) : Except RErr Elem :=
  bindE (pyLen items) fun n =>
  let nRows := (n + 1) / 2
  bindE (mapME (fun r =>
      bindE (mapME (fun c =>
          let idx := r + c * nRows
          if idx < n then
            bindE (pyIndex items idx) fun it =>
            .ok (Elem.para (sty.bullet ++ ' ' :: pyStr it))
          else .ok (Elem.para []))
        [0, 1]) fun cells => .ok cells)
    (List.range nRows)) fun rows =>
  .ok (Elem.table nRows 2 rows.flatten)

/-- The `work()` writer of `_section_writers`. -/
def workWriter (sty : Style) (shaded : Bool) (jobs : Val) : Except RErr (List Elem) :=
  bindE (pyIter jobs) fun xs =>
  bindE (mapME (fun jb =>
      bindE (vget jb "position" (.str [])) fun pos =>
      bindE (vget jb "company" (.str [])) fun comp =>
      bindE (tl_dates jb "start_date" "end_date") fun dates =>
      bindE (vget jb "responsibilities" (.list [])) fun resp =>
      bindE (addBullets sty resp) fun bullets =>
      .ok (Elem.para (pyStr pos ++ lc " — " ++ pyStr comp ++ lc "  " ++ dates) :: bullets))
    xs) fun blocks =>
  .ok (addHeading sty shaded (lc "Work History") :: blocks.flatten)

/-- The `edu_w()` writer of `_section_writers`. -/
def eduWriter (sty : Style) (shaded : Bool) (edu : Val) : Except RErr (List Elem) :=
  bindE (pyIter edu) fun xs =>
  bindE (mapME (fun ed =>
      bindE (vget ed "degree" (.str [])) fun deg =>
      bindE (vget ed "institution" (.str [])) fun inst =>
      bindE (vget ed "location" (.str [])) fun loc =>
      bindE (joinTruthyStrs (lc ", ") [deg, inst, loc]) fun head =>
      bindE (tl_dates ed "start_date" "end_date") fun dates =>
      let p1 := Elem.para (if dates = [] then head else head ++ lc "  " ++ dates)
      bindE (vget ed "result" .vnone) fun res =>
      if truthy res then .ok [p1, Elem.para (lc "Result: " ++ pyStr res)]
      else .ok [p1])
    xs) fun blocks =>
  .ok (addHeading sty shaded (lc "Education") :: blocks.flatten)

/-- The `skills` writer of `_section_writers`. -/
def skillsWriter (sty : Style) (shaded : Bool) (skills : Val) : Except RErr (List Elem) :=
  bindE (addTwoCols sty skills) fun t =>
  .ok [addHeading sty shaded (lc "Skills"), t]

/-- The `langs_w()` writer of `_section_writers`. -/
def langsWriter (sty : Style) (shaded : Bool) (langs : Val) : Except RErr (List Elem) :=
  bindE (pyIter langs) fun xs =>
  bindE (mapME (fun l =>
      bindE (pySub l "language") fun lang =>
      bindE (pySub l "level") fun lev =>
      .ok (Val.str (pyStr lang ++ lc " (" ++ pyStr lev ++ lc ")")))
    xs) fun items =>
  bindE (addTwoCols sty (.list items)) fun t =>
  .ok [addHeading sty shaded (lc "Languages"), t]

/-- The `certs_w()` writer of `_section_writers`. -/
def certsWriter (sty : Style) (shaded : Bool) (certs : Val) : Except RErr (List Elem) :=
  bindE (pyIter certs) fun xs =>
  bindE (mapME (fun c =>
      bindE (pySub c "name") fun nm =>
      bindE (pySub c "issuer") fun iss =>
      bindE (pySub c "date_awarded") fun da =>
      .ok (Elem.para (pyStr nm ++ lc " — " ++ pyStr iss ++ lc " (" ++
        pyStr (fmt_date da) ++ lc ")")))
    xs) fun ps =>
  .ok (addHeading sty shaded (lc "Certifications") :: ps)

/-- `_section_writers(container, payload, sty)`: the writer dict in its
insertion order; a writer is registered only when its payload field is
truthy. -/
def sectionWriters (payload : List (String × Val)) (sty : Style) (shaded : Bool) :
    List (String × Except RErr (List Elem)) :=
  (if truthy (pget payload "employment_history") then
    [("work", workWriter sty shaded (pget payload "employment_history"))] else []) ++
  (if truthy (pget payload "education_history") then
    [("edu", eduWriter sty shaded (pget payload "education_history"))] else []) ++
  (if truthy (pget payload "skills") then
    [("skills", skillsWriter sty shaded (pget payload "skills"))] else []) ++
  (if truthy (pget payload "language_qualifications") then
    [("langs", langsWriter sty shaded (pget payload "language_qualifications"))] else []) ++
  (if truthy (pget payload "certifications") then
    [("certs", certsWriter sty shaded (pget payload "certifications"))] else [])

/-- Invoke the writers named by `keys`, in that order, appending their
output; a missing key contributes nothing (`if k in writers`). -/
def seqChunks (ws : List (String × Except RErr (List Elem))) :
    List String → Except RErr (List Elem)
  | [] => .ok []
  | k :: ks =>
    bindE (match assoc k ws with | some comp => comp | none => .ok []) fun es =>
    bindE (seqChunks ws ks) fun rest =>
    .ok (es ++ rest)

/-! ### Timeline layout (template 1, cv_maker.py lines 115-142, 258-268) -/

/-- `_write_timeline` with `_tl_work` as the cell filler. -/
def timelineWork (sty : Style) (jobs : Val) : Except RErr (List Elem) :=
  bindE (pyLen jobs) fun n =>
  bindE (pyIter jobs) fun xs =>
  bindE (mapME (fun rec =>
      bindE (tl_dates rec "start_date" "end_date") fun dates =>
      bindE (vget rec "position" (.str [])) fun pos =>
      bindE (vget rec "company" (.str [])) fun comp =>
      bindE (vget rec "responsibilities" .vnone) fun resp =>
      bindE (if truthy resp then
          bindE (pyIter resp) fun its =>
          .ok (its.map fun line => Elem.para (sty.bullet ++ ' ' :: pyStr line))
        else .ok []) fun bullets =>
      .ok (Elem.para dates :: Elem.para (pyStr pos ++ lc " — " ++ pyStr comp) :: bullets))
    xs) fun rows =>
  .ok [addHeading sty false (lc "Work History"), Elem.table n 2 rows.flatten]

/-- `_write_timeline` with `_tl_edu` as the cell filler. -/
def timelineEdu (sty : Style) (edu : Val) : Except RErr (List Elem) :=
  bindE (pyLen edu) fun n =>
  bindE (pyIter edu) fun xs =>
  bindE (mapME (fun rec =>
      bindE (tl_dates rec "start_date" "end_date") fun dates =>
      bindE (vget rec "degree" (.str [])) fun deg =>
      bindE (vget rec "institution" (.str [])) fun inst =>
      bindE (vget rec "location" .vnone) fun loc =>
      bindE (if truthy loc then
          bindE (pySub rec "location") fun lv => .ok (lc " — " ++ pyStr lv)
        else .ok []) fun locTxt =>
      bindE (vget rec "responsibilities" .vnone) fun resp =>
      bindE (if truthy resp then
          bindE (pyIter resp) fun its =>
          .ok (its.map fun line => Elem.para (sty.bullet ++ ' ' :: pyStr line))
        else .ok []) fun bullets =>
      .ok (Elem.para dates ::
        Elem.para (pyStr deg ++ lc ", " ++ pyStr inst ++ locTxt) :: bullets))
    xs) fun rows =>
  .ok [addHeading sty false (lc "Education"), Elem.table n 2 rows.flatten]

/-! ### `cv_json_to_docx` (cv_maker.py lines 216-308) -/

/-- The header block: name heading and optional contact line
(cv_maker.py lines 227-244). -/
def headerTrace (payload : List (String × Val)) : Except RErr (List Elem) :=
  let pd := pgetD payload "personal_details" (.obj [])
  bindE (vget pd "first_name" (.str [])) fun first =>
  bindE (vget pd "last_name" (.str [])) fun last =>
  let nameRaw := pyStrip (pyStr first ++ ' ' :: pyStr last)
  let nameText := if nameRaw = [] then lc "Name" else nameRaw
  bindE (vget pd "address" (.obj [])) fun addr =>
  bindE (vget addr "line1" .vnone) fun l1 =>
  bindE (vget addr "city" .vnone) fun city =>
  bindE (vget addr "country" .vnone) fun country =>
  bindE (joinTruthyStrs (lc ", ") [l1, city, country]) fun addressLine =>
  bindE (vget pd "email" .vnone) fun email =>
  bindE (vget pd "phone" .vnone) fun phone =>
  bindE (joinTruthyStrs (lc " ◆ ") [email, phone, .str addressLine]) fun contactLine =>
  .ok (Elem.nameHeading nameText ::
    (if contactLine = [] then [] else [Elem.contactPara contactLine]))

/-- The profile section (cv_maker.py lines 246-248); it raises nothing. -/
def profileTrace (sty : Style) (payload : List (String × Val)) : List Elem :=
  if truthy (pget payload "profile") then
    [addHeading sty false (lc "Profile"), Elem.para (pyStr (pget payload "profile"))]
  else []

/-- The body: dispatch on the template index (cv_maker.py lines 250-301).
`perm` is the shuffled ordering drawn by template 0. -/
def bodyTrace (sty : Style) (perm : List String) (payload : List (String × Val)) :
    Except RErr (List Elem) :=
  if sty.template = 0 then
    seqChunks (sectionWriters payload sty false) perm
  else if sty.template = 1 then
    bindE (if truthy (pget payload "employment_history") then
        timelineWork sty (pget payload "employment_history")
      else .ok []) fun w =>
    bindE (if truthy (pget payload "education_history") then
        timelineEdu sty (pget payload "education_history")
      else .ok []) fun e =>
    bindE (seqChunks (sectionWriters payload sty false) ["skills", "langs", "certs"])
      fun rest =>
    .ok (w ++ e ++ rest)
  else if sty.template = 2 then
    seqChunks (sectionWriters payload sty true) ["edu", "work", "skills", "langs", "certs"]
  else if sty.template = 3 then
    bindE (seqChunks (sectionWriters payload sty false) ["skills", "langs", "certs"])
      fun left =>
    bindE (seqChunks (sectionWriters payload sty false) ["work", "edu"]) fun right =>
    .ok [Elem.table 1 2 (left ++ right)]
  else
    seqChunks (sectionWriters payload { sty with border := lc "none" } false)
      ["work", "skills", "edu", "langs", "certs"]

/-- `max(0, min(4, template))` for a caller-forced template. -/
def clampTemplate (t : Int) : Nat := (max 0 (min 4 t)).toNat

/-- The drawn style with the caller's template override applied. -/
def applyOverride (sty : Style) : Option Int → Style
  | some t => { sty with template := clampTemplate t }
  | none => sty

/-- `cv_json_to_docx(payload, template)` as the trace of appended document
elements, for an explicit style draw `sty0` and template-0 shuffle `perm`. -/
def cv_json_to_docx (sty0 : Style) (perm : List String)
    (payload : List (String × Val)) (template : Option Int) : Except RErr (List Elem) :=
  let sty := applyOverride sty0 template
  bindE (headerTrace payload) fun hd =>
  bindE (bodyTrace sty perm payload) fun bd =>
  .ok (hd ++ profileTrace sty payload ++ bd)

/-! ### Observations on traces -/

mutual
/-- The headings appearing in an element, sidebar cells included. -/
def headingsOfE : Elem → List Elem
  | .heading t b s => [.heading t b s]
  | .table _ _ content => headingsOfL content
  | _ => []

/-- The headings appearing in a trace, in order. -/
def headingsOfL : List Elem → List Elem
  | [] => []
  | e :: rest => headingsOfE e ++ headingsOfL rest
end

/-- Elements the header block may contain. -/
def isHeaderElem : Elem → Bool
  | .nameHeading _ => true
  | .contactPara _ => true
  | _ => false

/-- `Except.error`-ness as a Boolean. -/
def isErrorB : Except RErr α → Bool
  | .error _ => true
  | .ok _ => false

/-- The section headings template 4 produces, in its fixed order, all
borderless and unshaded. -/
def minimalistHeads (sty : Style) (payload : List (String × Val)) : List Elem :=
  (if truthy (pget payload "employment_history") then
    [Elem.heading (headingText sty (lc "Work History")) false false] else []) ++
  (if truthy (pget payload "skills") then
    [Elem.heading (headingText sty (lc "Skills")) false false] else []) ++
  (if truthy (pget payload "education_history") then
    [Elem.heading (headingText sty (lc "Education")) false false] else []) ++
  (if truthy (pget payload "language_qualifications") then
    [Elem.heading (headingText sty (lc "Languages")) false false] else []) ++
  (if truthy (pget payload "certifications") then
    [Elem.heading (headingText sty (lc "Certifications")) false false] else [])

/-- A fixed concrete style draw, used to instantiate witnesses and
counterexamples (border drawn as `'single'`, title-cased headings). -/
def styFix : Style where
  font := lc "Arial"
  colour := 0
  bullet := lc "•"
  divider := lc "-"
  headingsUpper := false
  nameAlignCenter := false
  showDividers := true
  border := lc "single"
  template := 0

/-- A value an optional payload field may safely hold: absent/falsy, or a
string. -/
def strOrFalsy (v : Val) : Prop := truthy v = false ∨ ∃ s, v = Val.str s

/-- The optional section fields of the CV payload. -/
def optionalFields : List String :=
  ["profile", "employment_history", "education_history", "skills",
   "language_qualifications", "certifications"]

/-- No space or tab immediately precedes a line feed. -/
def noTabNL : Chars → Prop
  | [] => True
  | c :: rest => ¬(isHTab c = true ∧ rest.head? = some '\n') ∧ noTabNL rest

/-- The record built from the first five lines of a list, if it has five. -/
def firstFive? : List Chars → Option Job
  | e :: j :: s :: en :: c :: _ =>
    some { employer := e, job_description := j, start_date := s,
           end_date := en, contact_name := c }
  | _ => none

/-! ## Lemmas about the text normalizer -/

theorem subCR_no_cr (l : Chars) : '\r' ∉ subCR l := by
  induction l using subCR.induct with
  | case1 => simp [subCR]
  | case2 => simp [subCR]
  | case3 c h => simp [subCR, h]; exact fun e => h e.symm
  | case4 rest ih => simp [subCR, ih]
  | case5 c2 rest h ih => simp [subCR, h, ih]
  | case6 c1 c2 rest h ih => simp [subCR, h, ih]; exact fun e => h e.symm

theorem subCR_eq_self (l : Chars) (h : '\r' ∉ l) : subCR l = l := by
  induction l using subCR.induct with
  | case1 => rfl
  | case2 => simp at h
  | case3 c hc => simp [subCR, hc]
  | case4 rest ih => simp at h
  | case5 c2 rest hc ih => simp at h
  | case6 c1 c2 rest hc ih =>
    simp only [List.mem_cons, not_or] at h
    simp [subCR, hc, ih (by simp only [List.mem_cons, not_or]; exact h.2)]

theorem stripSp_sublist (l : Chars) : List.Sublist (stripSp l) l := by
  induction l with
  | nil => exact List.Sublist.refl _
  | cons c rest ih =>
    simp only [stripSp]
    split
    · exact ih.cons c
    · exact ih.cons₂ c

theorem stripSp_noTabNL (l : Chars) : noTabNL (stripSp l) := by
  induction l with
  | nil => trivial
  | cons c rest ih =>
    simp only [stripSp]
    split
    · exact ih
    · exact ⟨by assumption, ih⟩

theorem stripSp_eq_self (l : Chars) (h : noTabNL l) : stripSp l = l := by
  induction l with
  | nil => rfl
  | cons c rest ih =>
    obtain ⟨h1, h2⟩ := h
    simp only [stripSp, ih h2]
    split
    · exact absurd (by assumption) h1
    · rfl

/-- C10: the text normalizer `_clean_text` is idempotent: applying the
cleanup (collapse `\r\n` and `\r` to `\n`, strip horizontal whitespace
immediately before a line break) twice gives the same result as applying
it once. -/
theorem c10_clean_text_idempotent (l : Chars) :
    clean_text (clean_text l) = clean_text l := by
  unfold clean_text
  rw [subCR_eq_self _ (fun hm => subCR_no_cr l ((stripSp_sublist (subCR l)).subset hm)),
      stripSp_eq_self _ (stripSp_noTabNL (subCR l))]

/-! ## Lemmas about the labeled-field locator -/

theorem find_value_none (text label dflt : Chars)
    (hA : searchInline text label = none) (hB : searchNext text label = none) :
    find_value text label dflt = dflt := by
  unfold find_value
  rw [hA, hB]

/-- C9: when neither the inline pattern nor the next-line pattern of
`_find_value` matches anywhere in the text, the caller-supplied default is
returned (the function is total, so no error can be raised). -/
theorem c9_find_value_default (text label dflt : Chars)
    (hA : searchInline text label = none) (hB : searchNext text label = none) :
    find_value text label dflt = dflt := by
  unfold find_value
  rw [hA, hB]

theorem c9_find_value_default_witness :
    find_value (lc "abc") (lc "Nationality") [] = [] :=
  c9_find_value_default (lc "abc") (lc "Nationality") [] rfl rfl

theorem searchAux_of_none (f : Nat → Option Chars) (h : ∀ i, f i = none) :
    ∀ fuel i, searchAux f i fuel = none := by
  intro fuel
  induction fuel with
  | zero => intro i; rfl
  | succ n ih => intro i; simp [searchAux, h i, ih]

theorem searchAux_found (f : Nat → Option Chars) (v : Chars) :
    ∀ (m i fuel : Nat), m < fuel → (∀ j, j < m → f (i + j) = none) →
      f (i + m) = some v → searchAux f i fuel = some v := by
  intro m
  induction m with
  | zero =>
    intro i fuel hf _ hv
    cases fuel with
    | zero => omega
    | succ n =>
      simp only [searchAux]
      rw [show f i = some v from hv]
  | succ k ih =>
    intro i fuel hf h0 hv
    cases fuel with
    | zero => omega
    | succ n =>
      have hz : f i = none := by simpa using h0 0 (Nat.succ_pos k)
      have hstep : ∀ j, j < k → f (i + 1 + j) = none := by
        intro j hj
        have e : i + 1 + j = i + (j + 1) := by omega
        rw [e]; exact h0 (j + 1) (by omega)
      have hv' : f (i + 1 + k) = some v := by
        have e : i + 1 + k = i + (k + 1) := by omega
        rw [e]; exact hv
      simp only [searchAux, hz]
      exact ih (i + 1) n (by omega) hstep hv'

theorem untilNL_no_nl (v rest : Chars) (hvn : '\n' ∉ v)
    (hrest : rest = [] ∨ rest.head? = some '\n') :
    untilNL (v ++ rest) = v := by
  induction v with
  | nil =>
    rcases hrest with h | h
    · subst h; rfl
    · cases rest with
      | nil => rfl
      | cons r rs =>
        have hr : r = '\n' := by simpa using h
        subst hr
        simp [untilNL]
  | cons a v ih =>
    simp only [List.mem_cons, not_or] at hvn
    have ha : ¬a = '\n' := fun e => hvn.1 e.symm
    simp [untilNL, ha, ih hvn.2]

theorem matchNextAfter_spec (w v rest : Chars) (hw : ∀ c ∈ w, isHWS c = true)
    (hv : v ≠ []) (hvn : '\n' ∉ v) (hrest : rest = [] ∨ rest.head? = some '\n') :
    matchNextAfter (w ++ '\n' :: (v ++ rest)) = some v := by
  induction w with
  | nil =>
    cases v with
    | nil => exact absurd rfl hv
    | cons d v2 =>
      simp only [List.mem_cons, not_or] at hvn
      have hd : ¬d = '\n' := fun e => hvn.1 e.symm
      simp only [List.nil_append, List.cons_append, matchNextAfter]
      rw [if_neg (by decide)]
      simp only [if_true]
      rw [if_neg hd]
      exact congrArg some
        (untilNL_no_nl (d :: v2) rest (by simp [not_or]; exact hvn) hrest)
  | cons a w ih =>
    have ha : isHWS a = true := hw a (List.mem_cons_self a w)
    simp only [List.cons_append, matchNextAfter]
    rw [if_pos ha]
    exact ih (fun c hc => hw c (List.mem_cons_of_mem a hc))

/-- C3 (amended): when the first case-insensitive occurrence of the label
in the text is followed only by horizontal whitespace and then a line
break, the line immediately after the label is non-empty, and the inline
pattern matches nowhere, `_find_value` returns that immediately following
line trimmed.  (The original claim spoke of the next NON-EMPTY line: that
fails when a blank line separates the label from the value, see the
counterexample.) -/
theorem c3_find_value_next_line
    (p label w v rest dflt : Chars)
    (text : Chars) (htext : text = p ++ (label ++ (w ++ '\n' :: (v ++ rest))))
    (_hstart : p = [] ∨ p.getLast? = some '\n')
    (hw : ∀ c ∈ w, isHWS c = true)
    (hv : v ≠ []) (hvn : '\n' ∉ v)
    (hrest : rest = [] ∨ rest.head? = some '\n')
    (hfirst : ∀ i, i < p.length → lowerL ((text.drop i).take label.length) ≠ lowerL label)
    (hnoinline : ∀ i, matchInlineAt text label i = none) :
    find_value text label dflt = pyStrip v := by
  have hA : searchInline text label = none :=
    searchAux_of_none _ hnoinline _ _
  have hdrop : text.drop p.length = label ++ (w ++ '\n' :: (v ++ rest)) := by
    rw [htext]; exact List.drop_left p _
  have hmatch : matchNextAt text label p.length = some v := by
    simp only [matchNextAt, hdrop]
    rw [List.take_left, if_pos rfl, List.drop_left]
    exact matchNextAfter_spec w v rest hw hv hvn hrest
  have hnone : ∀ j, j < p.length → matchNextAt text label j = none := by
    intro j hj
    simp only [matchNextAt]
    rw [if_neg (hfirst j hj)]
  have hB : searchNext text label = some v := by
    unfold searchNext
    refine searchAux_found _ v p.length 0 (text.length + 1) ?_
      (by simpa using hnone) (by simpa using hmatch)
    have : p.length ≤ text.length := by
      rw [htext]; simp
    omega
  unfold find_value
  rw [hA, hB]

/-- The original C3 is false: with `"Label\n\nvalue"` the label stands
alone on a line, no inline match exists anywhere, and the next non-empty
line holds `"value"`, yet `_find_value` returns the default, because the
next-line pattern requires the value on the immediately following line. -/
theorem c3_find_value_next_line_cex :
    find_value (lc "Label\n\nvalue") (lc "Label") [] = [] ∧
      searchInline (lc "Label\n\nvalue") (lc "Label") = none ∧
      pyStrip (lc "value") = lc "value" ∧ lc "value" ≠ [] := by
  refine ⟨rfl, rfl, rfl, ?_⟩
  decide

theorem matchInlineAt_none_of_ge (text label : Chars) (hl : label ≠ [])
    (i : Nat) (hi : text.length ≤ i) : matchInlineAt text label i = none := by
  simp only [matchInlineAt]
  rw [List.drop_eq_nil_of_le hi]
  rw [if_neg]
  intro h
  apply hl
  have := congrArg List.length h
  simp only [lowerL, List.length_map, List.length_take, List.length_nil] at this
  exact List.eq_nil_of_length_eq_zero (by omega)

theorem c3_find_value_next_line_witness :
    find_value (lc "First Name\nJohn\nLast Name") (lc "First Name") [] = lc "John" := by
  have hfin : ∀ i, i < 25 →
      matchInlineAt (lc "First Name\nJohn\nLast Name") (lc "First Name") i = none := by
    decide
  have h := c3_find_value_next_line [] (lc "First Name") [] (lc "John")
    (lc "\nLast Name") [] (lc "First Name\nJohn\nLast Name") (by decide)
    (Or.inl rfl) (by decide) (by decide) (by decide) (Or.inr rfl)
    (by intro i hi; simp at hi)
    (by
      intro i
      by_cases hi : i < 25
      · exact hfin i hi
      · exact matchInlineAt_none_of_ge _ _ (by decide) i (by simp [lc]; omega))
  rw [h]
  rfl

/-! ## Lemmas about the employment extractor -/

/-- C7: `_extract_employment` returns the empty list when the literal
marker `"Employer"` is absent, and also when it is present but the first
data line equals `"No Records Found"` case-insensitively. -/
theorem c7_extract_employment_empty (text : Chars)
    (h : hasSubstr (lc "Employer") text = false ∨
      ∃ l rest, employmentDataOf text = l :: rest ∧
        lowerL l = lowerL (lc "No Records Found")) :
    extract_employment text = [] := by
  rcases h with h | ⟨l, rest, hd, hl⟩
  · have hb : employmentBlock text = none := by
      unfold hasSubstr at h
      unfold employmentBlock
      cases hs : splitFirst (lc "Employer") text with
      | none => rfl
      | some p => rw [hs] at h; simp at h
    unfold extract_employment
    rw [hb]
  · unfold extract_employment
    cases hb : employmentBlock text with
    | none => rfl
    | some blk =>
      have hd' : dataLines (employmentLines blk) = l :: rest := by
        unfold employmentDataOf at hd; rw [hb] at hd; exact hd
      simp [hd', hl]

theorem c7_extract_employment_empty_witness :
    extract_employment (lc "hello world") = [] ∧
      extract_employment (lc "Employer\nNo Records Found") = [] :=
  ⟨c7_extract_employment_empty _ (Or.inl rfl),
   c7_extract_employment_empty _ (Or.inr ⟨lc "No Records Found", [], by decide, rfl⟩)⟩

theorem chunkJobs_length (ls : List Chars) : (chunkJobs ls).length = ls.length / 5 := by
  induction ls using chunkJobs.induct with
  | case1 e j s en c rest ih =>
    simp only [chunkJobs, List.length_cons, ih]
    omega
  | case2 t ht =>
    rcases t with _ | ⟨a, _ | ⟨b, _ | ⟨c, _ | ⟨d, _ | ⟨e, rest⟩⟩⟩⟩⟩
    · rfl
    · simp [show chunkJobs [a] = [] from rfl]
    · simp [show chunkJobs [a, b] = [] from rfl]
    · simp [show chunkJobs [a, b, c] = [] from rfl]
    · simp [show chunkJobs [a, b, c, d] = [] from rfl]
    · exact (ht a b c d e rest rfl).elim

theorem chunkJobs_get? (ls : List Chars) :
    ∀ k, (chunkJobs ls).get? k = firstFive? (ls.drop (5 * k)) := by
  induction ls using chunkJobs.induct with
  | case1 e j s en c rest ih =>
    intro k
    cases k with
    | zero => rfl
    | succ k2 =>
      have hdrop : (e :: j :: s :: en :: c :: rest).drop (5 * (k2 + 1)) =
          rest.drop (5 * k2) := by
        have h5 : 5 * (k2 + 1) = 5 + 5 * k2 := by ring
        have hd := List.drop_drop (5 * k2) 5 (e :: j :: s :: en :: c :: rest)
        rw [h5, ← hd]
        rfl
      calc (chunkJobs (e :: j :: s :: en :: c :: rest)).get? (k2 + 1)
          = (chunkJobs rest).get? k2 := rfl
        _ = firstFive? (rest.drop (5 * k2)) := ih k2
        _ = firstFive? ((e :: j :: s :: en :: c :: rest).drop (5 * (k2 + 1))) := by
            rw [hdrop]
  | case2 t ht =>
    intro k
    rcases t with _ | ⟨a, _ | ⟨b, _ | ⟨c, _ | ⟨d, _ | ⟨e, rest⟩⟩⟩⟩⟩
    · cases k <;> rfl
    · cases k with
      | zero => rfl
      | succ k2 => rw [List.drop_eq_nil_of_le (by simp; omega)]; rfl
    · cases k with
      | zero => rfl
      | succ k2 => rw [List.drop_eq_nil_of_le (by simp; omega)]; rfl
    · cases k with
      | zero => rfl
      | succ k2 => rw [List.drop_eq_nil_of_le (by simp; omega)]; rfl
    · cases k with
      | zero => rfl
      | succ k2 => rw [List.drop_eq_nil_of_le (by simp; omega)]; rfl
    · exact (ht a b c d e rest rfl).elim

theorem extract_eq_chunk (text : Chars)
    (hemp : hasSubstr (lc "Employer") text = true)
    (hnrf : ∀ l, (employmentDataOf text).head? = some l →
      lowerL l ≠ lowerL (lc "No Records Found")) :
    extract_employment text = chunkJobs (employmentDataOf text) := by
  unfold hasSubstr at hemp
  cases hs : splitFirst (lc "Employer") text with
  | none => rw [hs] at hemp; simp at hemp
  | some p =>
    obtain ⟨blk, hb⟩ : ∃ blk, employmentBlock text = some blk := by
      unfold employmentBlock
      rw [hs]
      exact ⟨_, rfl⟩
    have hdl : employmentDataOf text = dataLines (employmentLines blk) := by
      unfold employmentDataOf
      rw [hb]
    rw [hdl]
    cases hls : dataLines (employmentLines blk) with
    | nil =>
      unfold extract_employment
      simp only [hb, hls]
      rfl
    | cons l tail =>
      unfold extract_employment
      simp only [hb, hls]
      rw [if_neg (hnrf l (by rw [hdl, hls]; rfl))]

/-- C1 (amended): for every text containing the marker `"Employer"` and a
`"Contact Name"` header line, whose first data line is NOT
`"No Records Found"` (case-insensitively), `_extract_employment` returns
exactly `⌊N/5⌋` records for `N` trailing non-empty data lines, mapping the
`k`-th group of five consecutive lines positionally to
employer / job_description / start_date / end_date / contact_name and
silently dropping the trailing incomplete group.  (The original claim
omitted the `"No Records Found"` exception, under which the code returns
no records at all: see the counterexample.) -/
theorem c1_extract_employment_chunks (text : Chars)
    (hemp : hasSubstr (lc "Employer") text = true)
    (_hcn : lc "Contact Name" ∈ employmentLinesOf text)
    (hnrf : ∀ l, (employmentDataOf text).head? = some l →
      lowerL l ≠ lowerL (lc "No Records Found")) :
    (extract_employment text).length = (employmentDataOf text).length / 5 ∧
      ∀ k, (extract_employment text).get? k =
        firstFive? ((employmentDataOf text).drop (5 * k)) := by
  rw [extract_eq_chunk text hemp hnrf]
  exact ⟨chunkJobs_length _, chunkJobs_get? _⟩

/-- The original C1 is false: this text contains `"Employer"`, a
`"Contact Name"` header and exactly five non-empty trailing data lines, so
the claim predicts `⌊5/5⌋ = 1` record, but the first data line is
`"No Records Found"` and the code returns none. -/
theorem c1_extract_employment_chunks_cex :
    hasSubstr (lc "Employer") (lc "Employer\nContact Name\nNo Records Found\nB\nC\nD\nE") = true ∧
      lc "Contact Name" ∈
        employmentLinesOf (lc "Employer\nContact Name\nNo Records Found\nB\nC\nD\nE") ∧
      (employmentDataOf (lc "Employer\nContact Name\nNo Records Found\nB\nC\nD\nE")).length = 5 ∧
      (extract_employment (lc "Employer\nContact Name\nNo Records Found\nB\nC\nD\nE")).length = 0 := by
  decide

theorem c1_extract_employment_chunks_witness :
    (extract_employment
      (lc "Employer\nContact Name\nA1\nB1\nC1\nD1\nE1\nA2\nB2\nC2\nD2\nE2\nA3\nB3")).length = 2 ∧
    (extract_employment
      (lc "Employer\nContact Name\nA1\nB1\nC1\nD1\nE1\nA2\nB2\nC2\nD2\nE2\nA3\nB3")).get? 1 =
      some { employer := lc "A2", job_description := lc "B2", start_date := lc "C2",
             end_date := lc "D2", contact_name := lc "E2" } := by
  have h := c1_extract_employment_chunks
    (lc "Employer\nContact Name\nA1\nB1\nC1\nD1\nE1\nA2\nB2\nC2\nD2\nE2\nA3\nB3")
    (by decide) (by decide)
    (by
      intro l hl
      have h0 : (employmentDataOf
          (lc "Employer\nContact Name\nA1\nB1\nC1\nD1\nE1\nA2\nB2\nC2\nD2\nE2\nA3\nB3")).head? =
          some (lc "A1") := by decide
      have hla : l = lc "A1" := Option.some.inj (hl.symm.trans h0)
      subst hla
      decide)
  exact ⟨h.1.trans (by decide), (h.2 1).trans (by decide)⟩

/-! ## The record assembler always yields every key -/

theorem employmentBlock_none (text : Chars)
    (h : hasSubstr (lc "Employer") text = false) : employmentBlock text = none := by
  unfold hasSubstr at h
  unfold employmentBlock
  cases hs : splitFirst (lc "Employer") text with
  | none => rfl
  | some p => rw [hs] at h; simp at h

theorem extract_employment_no_marker (text : Chars)
    (h : hasSubstr (lc "Employer") text = false) : extract_employment text = [] := by
  unfold extract_employment
  rw [employmentBlock_none text h]

/-- C2: for every input text the extracted record carries every field key
— all scalars, the nested permanent address with its four keys, and the
employment list — in the fixed source order; when neither pattern matches
a scalar label the value is the empty string, and when the employment
marker is absent the employment value is the empty list. -/
theorem c2_record_keys_total (text : Chars) :
    (extract_info text).map Prod.fst =
      ["application_ref", "title", "first_name", "middle_name", "last_name", "dob",
       "email", "mobile", "nationality", "program", "intake", "campus",
       "term_postcode", "permanent_address", "fee_payer", "previous_loan",
       "reference_name", "reference_email", "employment"] ∧
    (∀ a, assoc "permanent_address" (extract_info text) = some (FVal.addr a) →
      a.map Prod.fst = ["address_line_1", "city", "postcode", "country"]) ∧
    (∀ k l, (k, l) ∈ scalarPairs →
      searchInline text l = none → searchNext text l = none →
      assoc k (extract_info text) = some (FVal.s [])) ∧
    (∀ k l, (k, l) ∈ addrPairs →
      searchInline text l = none → searchNext text l = none →
      ∀ a, assoc "permanent_address" (extract_info text) = some (FVal.addr a) →
        assoc k a = some []) ∧
    (hasSubstr (lc "Employer") text = false →
      assoc "employment" (extract_info text) = some (FVal.emp [])) := by
  refine ⟨rfl, ?_, ?_, ?_, ?_⟩
  · intro a h
    have h1 := Option.some.inj h
    injection h1 with h2
    rw [← h2]
    rfl
  · intro k l hk hA hB
    fin_cases hk <;>
      exact congrArg (fun v => some (FVal.s v)) (find_value_none text _ [] hA hB)
  · intro k l hk hA hB a ha
    have h1 := Option.some.inj ha
    injection h1 with h2
    subst h2
    fin_cases hk <;>
      exact congrArg some (find_value_none text _ [] hA hB)
  · intro hemp
    exact congrArg (fun js => some (FVal.emp js)) (extract_employment_no_marker text hemp)

theorem c2_record_keys_total_witness :
    assoc "title" (extract_info (lc "")) = some (FVal.s []) ∧
      assoc "city" [("address_line_1", find_value (lc "") (lc "Address Line 1") []),
        ("city", find_value (lc "") (lc "City") []),
        ("postcode", find_value (lc "") (lc "Postcode") []),
        ("country", find_value (lc "") (lc "Country") [])] = some [] ∧
      assoc "employment" (extract_info (lc "")) = some (FVal.emp []) :=
  ⟨(c2_record_keys_total (lc "")).2.2.1 "title" (lc "Title") (by simp [scalarPairs]) rfl rfl,
   (c2_record_keys_total (lc "")).2.2.2.1 "city" (lc "City") (by simp [addrPairs]) rfl rfl _ rfl,
   (c2_record_keys_total (lc "")).2.2.2.2 rfl⟩

/-! ## Lemmas about the date formatter -/

theorem bindE_ok (a : α) (f : α → Except RErr β) : bindE (.ok a) f = f a := rfl

theorem bindE_error (e : RErr) (f : α → Except RErr β) :
    bindE (.error e) f = (.error e : Except RErr β) := rfl


theorem dropWhile_head_false (p : Char → Bool) (l : Chars)
    (h : ∀ c, l.head? = some c → p c = false) : l.dropWhile p = l := by
  cases l with
  | nil => rfl
  | cons a t => simp [List.dropWhile_cons, h a rfl]

theorem stripWith_eq_self (p : Char → Bool) (l : Chars)
    (h1 : ∀ c, l.head? = some c → p c = false)
    (h2 : ∀ c, l.getLast? = some c → p c = false) : stripWith p l = l := by
  unfold stripWith
  rw [dropWhile_head_false p l h1,
      dropWhile_head_false p l.reverse
        (fun c hc => h2 c (by rwa [List.head?_reverse] at hc)),
      List.reverse_reverse]

theorem parseMonth_range (r : Chars) (m : Nat) (h : parseMonth r = some m) :
    1 ≤ m ∧ m ≤ 12 := by
  rcases r with _ | ⟨c1, _ | ⟨c2, _ | ⟨c3, r⟩⟩⟩
  · simp [parseMonth] at h
  · simp only [parseMonth] at h
    split_ifs at h with h1
    obtain rfl := Option.some.inj h
    simp [isDigit19] at h1
    unfold digitVal
    omega
  · simp only [parseMonth] at h
    split_ifs at h with h1 h2 h3 h4 h5 h6
    all_goals first
      | exact Option.noConfusion h
      | (obtain rfl := Option.some.inj h; decide)
      | (obtain rfl := Option.some.inj h; simp [isDigit19] at h6; unfold digitVal; omega)
  · simp [parseMonth] at h

theorem parseYM_range (s : Chars) (y m : Nat) (h : parseYM s = some (y, m)) :
    s ≠ [] ∧ 1 ≤ m ∧ m ≤ 12 := by
  rcases s with _ | ⟨a, _ | ⟨b, _ | ⟨c, _ | ⟨d, _ | ⟨e, rest⟩⟩⟩⟩⟩
  · simp [parseYM] at h
  · simp [parseYM] at h
  · simp [parseYM] at h
  · simp [parseYM] at h
  · simp [parseYM] at h
  refine ⟨List.cons_ne_nil a _, ?_⟩
  simp only [parseYM] at h
  split_ifs at h with h1 h2
  cases hm2 : parseMonth rest with
  | none => simp [hm2] at h
  | some m2 =>
    simp [hm2] at h
    have hb := parseMonth_range rest m2 hm2
    omega

/-- The space-or-EN-DASH strip of `_tl_dates` leaves a formatted
`Mon YYYY – Present` text unchanged. -/
theorem stripDash_noop (m y : Nat) (hm1 : 1 ≤ m) (hm2 : m ≤ 12) :
    stripDash ((monthAbbr m ++ ' ' :: yearRepr y) ++ lc " – Present") =
      (monthAbbr m ++ ' ' :: yearRepr y) ++ lc " – Present" := by
  apply stripWith_eq_self
  · intro c hc
    interval_cases m <;>
      (have hce := Option.some.inj hc; subst hce; decide)
  · intro c hc
    rw [List.getLast?_append_of_ne_nil _ (by decide : lc " – Present" ≠ [])] at hc
    have hct : c = 't' :=
      Option.some.inj (hc.symm.trans (by decide : (lc " – Present").getLast? = some 't'))
    subst hct
    decide

/-- C5: `_fmt_date` maps a missing or empty date to `"Present"`, a string
accepted by the `%Y-%m` parse to the abbreviated month plus year, and any
other string through unchanged; `_tl_dates` renders a missing end date as
`"Present"` after the formatted start date. -/
theorem c5_fmt_date_spec :
    fmt_date .vnone = .str (lc "Present") ∧
    fmt_date (.str []) = .str (lc "Present") ∧
    (∀ s y m, parseYM s = some (y, m) →
      fmt_date (.str s) = .str (monthAbbr m ++ ' ' :: yearRepr y)) ∧
    (∀ s, s ≠ [] → parseYM s = none → fmt_date (.str s) = .str s) ∧
    (∀ rec s e y m, vget rec "start_date" .vnone = .ok (.str s) →
      parseYM s = some (y, m) →
      vget rec "end_date" .vnone = .ok e → truthy e = false →
      tl_dates rec "start_date" "end_date" =
        .ok (monthAbbr m ++ ' ' :: (yearRepr y ++ lc " – Present"))) := by
  have key : ∀ s y m, parseYM s = some (y, m) →
      fmt_date (.str s) = .str (monthAbbr m ++ ' ' :: yearRepr y) := by
    intro s y m h
    have hs : s ≠ [] := (parseYM_range s y m h).1
    have ht : truthy (.str s) = true := by
      cases s
      · exact absurd rfl hs
      · rfl
    simp only [fmt_date, ht]
    rw [h, if_neg (by decide : ¬(true = false))]
  refine ⟨rfl, rfl, key, ?_, ?_⟩
  · intro s hs hn
    have ht : truthy (.str s) = true := by
      cases s
      · exact absurd rfl hs
      · rfl
    simp only [fmt_date, ht]
    rw [hn, if_neg (by decide : ¬(true = false))]
  · intro rec s e y m hs hym he hte
    obtain ⟨hsne, hm1, hm2⟩ := parseYM_range s y m hym
    have ht : truthy (.str s) = true := by
      cases s
      · exact absurd rfl hsne
      · rfl
    simp only [tl_dates, hs, he, bindE_ok]
    rw [if_neg (fun hand => by rw [ht] at hand; cases hand.1)]
    rw [ht, hte]
    simp only [if_true, if_false, Bool.false_eq_true]
    rw [key s y m hym]
    have hjoin : lc " – " ++ lc "Present" = lc " – Present" := by decide
    have hassoc : pyStr (Val.str (monthAbbr m ++ ' ' :: yearRepr y)) ++ lc " – " ++ lc "Present" =
        (monthAbbr m ++ ' ' :: yearRepr y) ++ lc " – Present" := by
      rw [List.append_assoc, hjoin]
      rfl
    rw [hassoc, stripDash_noop m y hm1 hm2]
    rw [List.append_assoc, List.cons_append]

theorem c5_fmt_date_spec_witness :
    fmt_date (.str (lc "1840-01")) = .str (lc "Jan 1840") ∧
    fmt_date (.str (lc "not-a-date")) = .str (lc "not-a-date") ∧
    fmt_date .vnone = .str (lc "Present") ∧
    tl_dates (.obj [("start_date", .str (lc "1840-01"))]) "start_date" "end_date" =
      .ok (lc "Jan 1840 – Present") := by
  refine ⟨?_, ?_, c5_fmt_date_spec.1, ?_⟩
  · exact (c5_fmt_date_spec.2.2.1 (lc "1840-01") 1840 1 rfl).trans rfl
  · exact c5_fmt_date_spec.2.2.2.1 (lc "not-a-date") (by decide) rfl
  · exact (c5_fmt_date_spec.2.2.2.2 (.obj [("start_date", .str (lc "1840-01"))])
      (lc "1840-01") .vnone 1840 1 rfl rfl rfl rfl).trans rfl

/-! ## Trace lemmas for the renderer -/

theorem bindE_eq_ok {x : Except RErr α} {f : α → Except RErr β} {b : β}
    (h : bindE x f = .ok b) : ∃ a, x = .ok a ∧ f a = .ok b := by
  cases x with
  | error e => simp [bindE] at h
  | ok a => exact ⟨a, rfl, h⟩

theorem bindE_isError_left {x : Except RErr α} {f : α → Except RErr β}
    (h : isErrorB x = true) : isErrorB (bindE x f) = true := by
  cases x with
  | error e => rfl
  | ok a => simp [isErrorB] at h

theorem bindE_isError_right {x : Except RErr α} {f : α → Except RErr β}
    (h : ∀ a, x = .ok a → isErrorB (f a) = true) : isErrorB (bindE x f) = true := by
  cases x with
  | error e => rfl
  | ok a => exact h a rfl

theorem mapME_ok_forall {f : α → Except RErr β} {xs : List α} {ys : List β}
    (h : mapME f xs = .ok ys)
    (P : β → Prop) (hf : ∀ x y, f x = .ok y → P y) : ∀ y ∈ ys, P y := by
  induction xs generalizing ys with
  | nil =>
    obtain rfl := Except.ok.inj h
    intro y hy
    cases hy
  | cons x xs ih =>
    simp only [mapME] at h
    obtain ⟨y0, h1, h⟩ := bindE_eq_ok h
    obtain ⟨ys0, h2, h⟩ := bindE_eq_ok h
    obtain rfl := Except.ok.inj h
    intro y hy
    rcases List.mem_cons.mp hy with rfl | hy2
    · exact hf x y h1
    · exact ih h2 y hy2

theorem headingsOfL_append (l1 l2 : List Elem) :
    headingsOfL (l1 ++ l2) = headingsOfL l1 ++ headingsOfL l2 := by
  induction l1 with
  | nil => rfl
  | cons e t ih => simp [headingsOfL, ih, List.append_assoc]

theorem headingsOfL_eq_nil_of_forall (l : List Elem)
    (h : ∀ e ∈ l, headingsOfE e = []) : headingsOfL l = [] := by
  induction l with
  | nil => rfl
  | cons e t ih =>
    simp only [headingsOfL, h e (List.mem_cons_self e t)]
    exact ih (fun e2 he2 => h e2 (List.mem_cons_of_mem e he2))

theorem headingsOfL_flatten_nil (ls : List (List Elem))
    (h : ∀ l ∈ ls, headingsOfL l = []) : headingsOfL ls.flatten = [] := by
  induction ls with
  | nil => rfl
  | cons l t ih =>
    rw [List.flatten_cons, headingsOfL_append, h l (List.mem_cons_self l t),
      ih (fun l2 hl2 => h l2 (List.mem_cons_of_mem l hl2))]
    rfl

theorem headingsOfL_map_para (xs : List α) (g : α → Chars) :
    headingsOfL (xs.map fun x => Elem.para (g x)) = [] := by
  induction xs with
  | nil => rfl
  | cons x t ih => simp [headingsOfL, headingsOfE, ih]

/-! ### `seqChunks` behaviour -/

theorem seqChunks_isError (ws : List (String × Except RErr (List Elem)))
    (keys : List String) (k : String) (hk : k ∈ keys) (e : RErr)
    (ha : assoc k ws = some (.error e)) :
    isErrorB (seqChunks ws keys) = true := by
  induction keys with
  | nil => cases hk
  | cons k0 ks ih =>
    simp only [seqChunks]
    rcases List.mem_cons.mp hk with rfl | hmem
    · rw [ha]
      rfl
    · apply bindE_isError_right
      intro es hes
      exact bindE_isError_left (ih hmem)

theorem seqChunks_ok_nil (ws : List (String × Except RErr (List Elem)))
    (keys : List String) (h : ∀ k ∈ keys, assoc k ws = none) :
    seqChunks ws keys = .ok [] := by
  induction keys with
  | nil => rfl
  | cons k0 ks ih =>
    simp only [seqChunks]
    rw [h k0 (List.mem_cons_self k0 ks),
      ih (fun k hk => h k (List.mem_cons_of_mem k0 hk))]
    rfl

theorem seqChunks_headings (ws : List (String × Except RErr (List Elem)))
    (keys : List String) (H : String → List Elem)
    (hk : ∀ k ∈ keys,
      (assoc k ws = none ∧ H k = []) ∨
      (∃ comp, assoc k ws = some comp ∧
        ∀ es, comp = .ok es → headingsOfL es = H k)) :
    ∀ b, seqChunks ws keys = .ok b → headingsOfL b = (keys.map H).flatten := by
  induction keys with
  | nil =>
    intro b hb
    obtain rfl := Except.ok.inj hb
    rfl
  | cons k0 ks ih =>
    intro b hb
    simp only [seqChunks] at hb
    obtain ⟨es, h1, hb⟩ := bindE_eq_ok hb
    obtain ⟨rest, h2, hb⟩ := bindE_eq_ok hb
    obtain rfl := Except.ok.inj hb
    rw [headingsOfL_append]
    have hrest := ih (fun k hk2 => hk k (List.mem_cons_of_mem k0 hk2)) rest h2
    rcases hk k0 (List.mem_cons_self k0 ks) with ⟨hnone, hH⟩ | ⟨comp, hcomp, hok⟩
    · rw [hnone] at h1
      obtain rfl := Except.ok.inj h1
      simp [hH, hrest, headingsOfL]
    · rw [hcomp] at h1
      rw [hok es h1, hrest]
      simp

/-! ### Each section writer emits exactly its own heading -/

theorem addTwoCols_headings (sty : Style) (items : Val) (t : Elem)
    (h : addTwoCols sty items = .ok t) : headingsOfE t = [] := by
  unfold addTwoCols at h
  obtain ⟨n, h1, h⟩ := bindE_eq_ok h
  obtain ⟨rows, h2, h⟩ := bindE_eq_ok h
  obtain rfl := Except.ok.inj h
  have hrows : ∀ r ∈ rows, headingsOfL r = [] := by
    refine mapME_ok_forall h2 _ ?_
    intro r cells hc
    obtain ⟨cs, hcs, hc⟩ := bindE_eq_ok hc
    obtain rfl := Except.ok.inj hc
    refine headingsOfL_eq_nil_of_forall cs ?_
    refine mapME_ok_forall hcs _ ?_
    intro c e he
    by_cases hidx : r + c * ((n + 1) / 2) < n
    · rw [if_pos hidx] at he
      obtain ⟨it, hit, he⟩ := bindE_eq_ok he
      obtain rfl := Except.ok.inj he
      rfl
    · rw [if_neg hidx] at he
      obtain rfl := Except.ok.inj he
      rfl
  show headingsOfL rows.flatten = []
  exact headingsOfL_flatten_nil rows hrows

theorem workWriter_headings (sty : Style) (sh : Bool) (v : Val) (es : List Elem)
    (h : workWriter sty sh v = .ok es) :
    headingsOfL es = [addHeading sty sh (lc "Work History")] := by
  unfold workWriter at h
  obtain ⟨xs, h1, h⟩ := bindE_eq_ok h
  obtain ⟨blocks, h2, h⟩ := bindE_eq_ok h
  obtain rfl := Except.ok.inj h
  have hblocks : ∀ b ∈ blocks, headingsOfL b = [] := by
    refine mapME_ok_forall h2 _ ?_
    intro jb r hr
    obtain ⟨pos, hp, hr⟩ := bindE_eq_ok hr
    obtain ⟨comp, hco, hr⟩ := bindE_eq_ok hr
    obtain ⟨dates, hd, hr⟩ := bindE_eq_ok hr
    obtain ⟨resp, hrs, hr⟩ := bindE_eq_ok hr
    obtain ⟨bullets, hb, hr⟩ := bindE_eq_ok hr
    obtain rfl := Except.ok.inj hr
    unfold addBullets at hb
    obtain ⟨its, hi, hb⟩ := bindE_eq_ok hb
    obtain rfl := Except.ok.inj hb
    simp [headingsOfL, headingsOfE, headingsOfL_map_para]
  simp [headingsOfL, headingsOfE, addHeading, headingsOfL_flatten_nil blocks hblocks]

theorem eduWriter_headings (sty : Style) (sh : Bool) (v : Val) (es : List Elem)
    (h : eduWriter sty sh v = .ok es) :
    headingsOfL es = [addHeading sty sh (lc "Education")] := by
  unfold eduWriter at h
  obtain ⟨xs, h1, h⟩ := bindE_eq_ok h
  obtain ⟨blocks, h2, h⟩ := bindE_eq_ok h
  obtain rfl := Except.ok.inj h
  have hblocks : ∀ b ∈ blocks, headingsOfL b = [] := by
    refine mapME_ok_forall h2 _ ?_
    intro ed r hr
    obtain ⟨deg, hd, hr⟩ := bindE_eq_ok hr
    obtain ⟨inst, hin, hr⟩ := bindE_eq_ok hr
    obtain ⟨loc, hl, hr⟩ := bindE_eq_ok hr
    obtain ⟨head, hh, hr⟩ := bindE_eq_ok hr
    obtain ⟨dates, hda, hr⟩ := bindE_eq_ok hr
    obtain ⟨res, hre, hr⟩ := bindE_eq_ok hr
    by_cases ht : truthy res = true
    · rw [if_pos ht] at hr
      obtain rfl := Except.ok.inj hr
      rfl
    · rw [if_neg ht] at hr
      obtain rfl := Except.ok.inj hr
      rfl
  simp [headingsOfL, headingsOfE, addHeading, headingsOfL_flatten_nil blocks hblocks]

theorem skillsWriter_headings (sty : Style) (sh : Bool) (v : Val) (es : List Elem)
    (h : skillsWriter sty sh v = .ok es) :
    headingsOfL es = [addHeading sty sh (lc "Skills")] := by
  unfold skillsWriter at h
  obtain ⟨t, h1, h⟩ := bindE_eq_ok h
  obtain rfl := Except.ok.inj h
  simp [headingsOfL, headingsOfE, addHeading, addTwoCols_headings sty v t h1]

theorem langsWriter_headings (sty : Style) (sh : Bool) (v : Val) (es : List Elem)
    (h : langsWriter sty sh v = .ok es) :
    headingsOfL es = [addHeading sty sh (lc "Languages")] := by
  unfold langsWriter at h
  obtain ⟨xs, h1, h⟩ := bindE_eq_ok h
  obtain ⟨items, h2, h⟩ := bindE_eq_ok h
  obtain ⟨t, h3, h⟩ := bindE_eq_ok h
  obtain rfl := Except.ok.inj h
  simp [headingsOfL, headingsOfE, addHeading, addTwoCols_headings sty _ t h3]

theorem certsWriter_headings (sty : Style) (sh : Bool) (v : Val) (es : List Elem)
    (h : certsWriter sty sh v = .ok es) :
    headingsOfL es = [addHeading sty sh (lc "Certifications")] := by
  unfold certsWriter at h
  obtain ⟨xs, h1, h⟩ := bindE_eq_ok h
  obtain ⟨ps, h2, h⟩ := bindE_eq_ok h
  obtain rfl := Except.ok.inj h
  have hps : ∀ p ∈ ps, headingsOfE p = [] := by
    refine mapME_ok_forall h2 _ ?_
    intro c p hp
    obtain ⟨nm, hn, hp⟩ := bindE_eq_ok hp
    obtain ⟨iss, hi, hp⟩ := bindE_eq_ok hp
    obtain ⟨da, hda, hp⟩ := bindE_eq_ok hp
    obtain rfl := Except.ok.inj hp
    rfl
  simp [headingsOfL, headingsOfE, addHeading, headingsOfL_eq_nil_of_forall ps hps]

/-! ### Header, profile and writer lookup -/

theorem headerTrace_elems (payload : List (String × Val)) (hd : List Elem)
    (h : headerTrace payload = .ok hd) : ∀ e ∈ hd, isHeaderElem e = true := by
  unfold headerTrace at h
  obtain ⟨first, h1, h⟩ := bindE_eq_ok h
  obtain ⟨last, h2, h⟩ := bindE_eq_ok h
  obtain ⟨addr, h3, h⟩ := bindE_eq_ok h
  obtain ⟨l1, h4, h⟩ := bindE_eq_ok h
  obtain ⟨city, h5, h⟩ := bindE_eq_ok h
  obtain ⟨country, h6, h⟩ := bindE_eq_ok h
  obtain ⟨addressLine, h7, h⟩ := bindE_eq_ok h
  obtain ⟨email, h8, h⟩ := bindE_eq_ok h
  obtain ⟨phone, h9, h⟩ := bindE_eq_ok h
  obtain ⟨contactLine, h10, h⟩ := bindE_eq_ok h
  obtain rfl := Except.ok.inj h
  intro e he
  rcases List.mem_cons.mp he with rfl | he2
  · rfl
  · split at he2
    · cases he2
    · rcases List.mem_cons.mp he2 with rfl | he3
      · rfl
      · cases he3

theorem headingsOfE_of_header (e : Elem) (he : isHeaderElem e = true) :
    headingsOfE e = [] := by
  cases e
  · rfl
  · rfl
  · exact Bool.noConfusion he
  · exact Bool.noConfusion he
  · exact Bool.noConfusion he

theorem headerTrace_headings (payload : List (String × Val)) (hd : List Elem)
    (h : headerTrace payload = .ok hd) : headingsOfL hd = [] :=
  headingsOfL_eq_nil_of_forall hd
    (fun e he => headingsOfE_of_header e (headerTrace_elems payload hd h e he))

theorem profileTrace_headings (sty : Style) (payload : List (String × Val)) :
    headingsOfL (profileTrace sty payload) =
      if truthy (pget payload "profile") then [addHeading sty false (lc "Profile")]
      else [] := by
  unfold profileTrace
  split
  · simp [headingsOfL, headingsOfE, addHeading]
  · rfl

theorem assoc_sw_work (payload : List (String × Val)) (sty : Style) (sh : Bool) :
    assoc "work" (sectionWriters payload sty sh) =
      if truthy (pget payload "employment_history") then
        some (workWriter sty sh (pget payload "employment_history")) else none := by
  unfold sectionWriters
  split_ifs <;> rfl

theorem assoc_sw_edu (payload : List (String × Val)) (sty : Style) (sh : Bool) :
    assoc "edu" (sectionWriters payload sty sh) =
      if truthy (pget payload "education_history") then
        some (eduWriter sty sh (pget payload "education_history")) else none := by
  unfold sectionWriters
  split_ifs <;> rfl

theorem assoc_sw_skills (payload : List (String × Val)) (sty : Style) (sh : Bool) :
    assoc "skills" (sectionWriters payload sty sh) =
      if truthy (pget payload "skills") then
        some (skillsWriter sty sh (pget payload "skills")) else none := by
  unfold sectionWriters
  split_ifs <;> rfl

theorem assoc_sw_langs (payload : List (String × Val)) (sty : Style) (sh : Bool) :
    assoc "langs" (sectionWriters payload sty sh) =
      if truthy (pget payload "language_qualifications") then
        some (langsWriter sty sh (pget payload "language_qualifications")) else none := by
  unfold sectionWriters
  split_ifs <;> rfl

theorem assoc_sw_certs (payload : List (String × Val)) (sty : Style) (sh : Bool) :
    assoc "certs" (sectionWriters payload sty sh) =
      if truthy (pget payload "certifications") then
        some (certsWriter sty sh (pget payload "certifications")) else none := by
  unfold sectionWriters
  split_ifs <;> rfl

/-- C6 (amended): whenever template 4 is selected, the body section
writers run in the fixed order work → skills → education → languages →
certifications and every heading they emit has no border; the Profile
heading, however, is written before the template dispatch and keeps the
drawn border style. (The original claim said EVERY section heading loses
its border, which the Profile heading violates: see the counterexample.) -/
theorem c6_template4_minimalist (sty0 : Style) (perm : List String)
    (payload : List (String × Val)) (tr : List Elem)
    (h : cv_json_to_docx sty0 perm payload (some 4) = .ok tr) :
    headingsOfL tr =
      (if truthy (pget payload "profile") then
        [Elem.heading (headingText sty0 (lc "Profile")) (hasBorder sty0.border) false]
       else []) ++ minimalistHeads sty0 payload := by
  simp only [cv_json_to_docx] at h
  obtain ⟨hd, hh, h⟩ := bindE_eq_ok h
  obtain ⟨bd, hb, h⟩ := bindE_eq_ok h
  obtain rfl := Except.ok.inj h
  rw [headingsOfL_append, headingsOfL_append,
    headerTrace_headings payload hd hh, profileTrace_headings]
  have hb' : seqChunks
      (sectionWriters payload
        { applyOverride sty0 (some 4) with border := lc "none" } false)
      ["work", "skills", "edu", "langs", "certs"] = .ok bd := by
    have h4 : (applyOverride sty0 (some 4)).template = 4 := rfl
    simpa [bodyTrace, h4] using hb
  have hbody := seqChunks_headings
    (sectionWriters payload
      { applyOverride sty0 (some 4) with border := lc "none" } false)
    ["work", "skills", "edu", "langs", "certs"]
    (fun k =>
      if k = "work" then
        (if truthy (pget payload "employment_history") then
          [Elem.heading (headingText sty0 (lc "Work History")) false false] else [])
      else if k = "skills" then
        (if truthy (pget payload "skills") then
          [Elem.heading (headingText sty0 (lc "Skills")) false false] else [])
      else if k = "edu" then
        (if truthy (pget payload "education_history") then
          [Elem.heading (headingText sty0 (lc "Education")) false false] else [])
      else if k = "langs" then
        (if truthy (pget payload "language_qualifications") then
          [Elem.heading (headingText sty0 (lc "Languages")) false false] else [])
      else
        (if truthy (pget payload "certifications") then
          [Elem.heading (headingText sty0 (lc "Certifications")) false false] else []))
    ?_ bd hb'
  · rw [hbody]
    simp [minimalistHeads, addHeading, headingText, hasBorder, applyOverride]
  · intro k hk
    fin_cases hk
    · by_cases hw : truthy (pget payload "employment_history") = true
      · refine Or.inr ⟨_, by rw [assoc_sw_work, if_pos hw], ?_⟩
        intro es hes
        rw [workWriter_headings _ _ _ es hes]
        beta_reduce
        rw [if_pos rfl, if_pos hw]
        rfl
      · exact Or.inl ⟨by rw [assoc_sw_work, if_neg hw],
          by beta_reduce; rw [if_pos rfl, if_neg hw]⟩
    · by_cases hw : truthy (pget payload "skills") = true
      · refine Or.inr ⟨_, by rw [assoc_sw_skills, if_pos hw], ?_⟩
        intro es hes
        rw [skillsWriter_headings _ _ _ es hes]
        beta_reduce
        rw [if_neg (by decide), if_pos rfl, if_pos hw]
        rfl
      · exact Or.inl ⟨by rw [assoc_sw_skills, if_neg hw],
          by beta_reduce; rw [if_neg (by decide), if_pos rfl, if_neg hw]⟩
    · by_cases hw : truthy (pget payload "education_history") = true
      · refine Or.inr ⟨_, by rw [assoc_sw_edu, if_pos hw], ?_⟩
        intro es hes
        rw [eduWriter_headings _ _ _ es hes]
        beta_reduce
        rw [if_neg (by decide), if_neg (by decide), if_pos rfl, if_pos hw]
        rfl
      · exact Or.inl ⟨by rw [assoc_sw_edu, if_neg hw],
          by beta_reduce
             rw [if_neg (by decide), if_neg (by decide), if_pos rfl, if_neg hw]⟩
    · by_cases hw : truthy (pget payload "language_qualifications") = true
      · refine Or.inr ⟨_, by rw [assoc_sw_langs, if_pos hw], ?_⟩
        intro es hes
        rw [langsWriter_headings _ _ _ es hes]
        beta_reduce
        rw [if_neg (by decide), if_neg (by decide), if_neg (by decide), if_pos rfl,
          if_pos hw]
        rfl
      · exact Or.inl ⟨by rw [assoc_sw_langs, if_neg hw],
          by beta_reduce
             rw [if_neg (by decide), if_neg (by decide), if_neg (by decide),
               if_pos rfl, if_neg hw]⟩
    · by_cases hw : truthy (pget payload "certifications") = true
      · refine Or.inr ⟨_, by rw [assoc_sw_certs, if_pos hw], ?_⟩
        intro es hes
        rw [certsWriter_headings _ _ _ es hes]
        beta_reduce
        rw [if_neg (by decide), if_neg (by decide), if_neg (by decide),
          if_neg (by decide), if_pos hw]
        rfl
      · exact Or.inl ⟨by rw [assoc_sw_certs, if_neg hw],
          by beta_reduce
             rw [if_neg (by decide), if_neg (by decide), if_neg (by decide),
               if_neg (by decide), if_neg hw]⟩

/-- The original C6 is false: under template 4 with a drawn border style,
the Profile section heading is rendered before the dispatch mutates the
border away, so it carries a border although the claim says every section
heading is borderless. -/
theorem c6_template4_minimalist_cex :
    cv_json_to_docx styFix [] [("profile", Val.str (lc "x"))] (some 4) =
      .ok [Elem.nameHeading (lc "Name"),
        Elem.heading (lc "Profile") true false, Elem.para (lc "x")] := rfl

theorem c6_template4_minimalist_witness :
    cv_json_to_docx styFix []
      [("profile", Val.str (lc "x")), ("skills", Val.list [Val.str (lc "a")])]
      (some 4) =
      .ok [Elem.nameHeading (lc "Name"), Elem.heading (lc "Profile") true false,
        Elem.para (lc "x"), Elem.heading (lc "Skills") false false,
        Elem.table 1 2 [Elem.para (lc "• a"), Elem.para []]] ∧
    headingsOfL [Elem.nameHeading (lc "Name"), Elem.heading (lc "Profile") true false,
        Elem.para (lc "x"), Elem.heading (lc "Skills") false false,
        Elem.table 1 2 [Elem.para (lc "• a"), Elem.para []]] =
      [Elem.heading (lc "Profile") true false, Elem.heading (lc "Skills") false false] :=
  ⟨rfl,
   (c6_template4_minimalist styFix []
     [("profile", Val.str (lc "x")), ("skills", Val.list [Val.str (lc "a")])]
     [Elem.nameHeading (lc "Name"), Elem.heading (lc "Profile") true false,
       Elem.para (lc "x"), Elem.heading (lc "Skills") false false,
       Elem.table 1 2 [Elem.para (lc "• a"), Elem.para []]] rfl).trans rfl⟩

/-! ### Empty optional sections -/

theorem sectionWriters_nil (payload : List (String × Val)) (sty : Style) (sh : Bool)
    (hsec : ∀ f ∈ optionalFields, truthy (pget payload f) = false) :
    sectionWriters payload sty sh = [] := by
  have h1 := hsec "employment_history" (by simp [optionalFields])
  have h2 := hsec "education_history" (by simp [optionalFields])
  have h3 := hsec "skills" (by simp [optionalFields])
  have h4 := hsec "language_qualifications" (by simp [optionalFields])
  have h5 := hsec "certifications" (by simp [optionalFields])
  simp [sectionWriters, h1, h2, h3, h4, h5]

theorem bodyTrace_ok_empty (sty : Style) (perm : List String)
    (payload : List (String × Val))
    (hsec : ∀ f ∈ optionalFields, truthy (pget payload f) = false) :
    bodyTrace sty perm payload = .ok [] ∨
      bodyTrace sty perm payload = .ok [Elem.table 1 2 []] := by
  have hnil : ∀ (sty2 : Style) (sh : Bool), sectionWriters payload sty2 sh = [] :=
    fun sty2 sh => sectionWriters_nil payload sty2 sh hsec
  have hseq : ∀ (sty2 : Style) (sh : Bool) (keys : List String),
      seqChunks (sectionWriters payload sty2 sh) keys = .ok [] := by
    intro sty2 sh keys
    rw [hnil]
    exact seqChunks_ok_nil [] keys (fun k _ => rfl)
  have he := hsec "employment_history" (by simp [optionalFields])
  have hed := hsec "education_history" (by simp [optionalFields])
  unfold bodyTrace
  by_cases h0 : sty.template = 0
  · rw [if_pos h0, hseq]
    exact Or.inl rfl
  · rw [if_neg h0]
    by_cases h1 : sty.template = 1
    · rw [if_pos h1]
      rw [if_neg (by rw [he]; exact Bool.false_ne_true), if_neg (by rw [hed]; exact Bool.false_ne_true)]
      rw [bindE_ok, bindE_ok, hseq]
      exact Or.inl rfl
    · rw [if_neg h1]
      by_cases h2 : sty.template = 2
      · rw [if_pos h2, hseq]
        exact Or.inl rfl
      · rw [if_neg h2]
        by_cases h3 : sty.template = 3
        · rw [if_pos h3, hseq, bindE_ok, hseq, bindE_ok]
          exact Or.inr rfl
        · rw [if_neg h3, hseq]
          exact Or.inl rfl

/-- C8 (amended): when every optional section field (profile, employment,
education, skills, languages, certifications) is absent or empty, the
rendered document contains no section headings and nothing beyond the
header block — except under template 3, whose unconditional sidebar table
is still emitted, empty. (The original claim said the document contains
ONLY the header block for every template: the empty sidebar table of
template 3 refutes that, see the counterexample.) -/
theorem c8_empty_sections_header_only (sty0 : Style) (perm : List String)
    (payload : List (String × Val)) (topt : Option Int) (tr : List Elem)
    (hsec : ∀ f ∈ optionalFields, truthy (pget payload f) = false)
    (h : cv_json_to_docx sty0 perm payload topt = .ok tr) :
    headingsOfL tr = [] ∧
      ∀ e ∈ tr, isHeaderElem e = true ∨ e = Elem.table 1 2 [] := by
  simp only [cv_json_to_docx] at h
  obtain ⟨hd, hh, h⟩ := bindE_eq_ok h
  obtain ⟨bd, hb, h⟩ := bindE_eq_ok h
  obtain rfl := Except.ok.inj h
  have hpr := hsec "profile" (by simp [optionalFields])
  have hprofile : profileTrace (applyOverride sty0 topt) payload = [] := by
    unfold profileTrace
    rw [if_neg (by rw [hpr]; exact Bool.false_ne_true)]
  have hbd : bd = [] ∨ bd = [Elem.table 1 2 []] := by
    rcases bodyTrace_ok_empty (applyOverride sty0 topt) perm payload hsec with h2 | h2 <;>
      rw [h2] at hb
    · exact Or.inl (Except.ok.inj hb).symm
    · exact Or.inr (Except.ok.inj hb).symm
  constructor
  · rw [hprofile, headingsOfL_append, headingsOfL_append,
      headerTrace_headings payload hd hh]
    rcases hbd with rfl | rfl <;> rfl
  · intro e he
    rw [hprofile] at he
    simp only [List.append_nil] at he
    rcases List.mem_append.mp he with hmem | hmem
    · exact Or.inl (headerTrace_elems payload hd hh e hmem)
    · rcases hbd with rfl | rfl
      · cases hmem
      · rcases List.mem_cons.mp hmem with rfl | hmem2
        · exact Or.inr rfl
        · cases hmem2

/-- The original C8 is false: with every optional section empty and
template 3 forced, the document contains an empty two-column sidebar table
beyond the header block. -/
theorem c8_empty_sections_header_only_cex :
    cv_json_to_docx styFix [] [] (some 3) =
      .ok [Elem.nameHeading (lc "Name"), Elem.table 1 2 []] ∧
    isHeaderElem (Elem.table 1 2 []) = false := ⟨rfl, rfl⟩

theorem c8_empty_sections_header_only_witness :
    headingsOfL [Elem.nameHeading (lc "Name")] = [] :=
  (c8_empty_sections_header_only styFix [] [] (some 0) [Elem.nameHeading (lc "Name")]
    (by decide) rfl).1

/-! ### A number where a list is required -/

theorem bodyTrace_error_employment (sty : Style) (perm : List String)
    (payload : List (String × Val)) (n : Int)
    (hemp : pget payload "employment_history" = .num n) (hn : n ≠ 0)
    (hperm : sty.template = 0 → "work" ∈ perm) :
    isErrorB (bodyTrace sty perm payload) = true := by
  have htru : truthy (pget payload "employment_history") = true := by
    rw [hemp]
    simp [truthy, hn]
  have hwork : ∀ (sty2 : Style) (sh : Bool),
      assoc "work" (sectionWriters payload sty2 sh) =
        some (.error (.typeErr (lc "object is not iterable"))) := by
    intro sty2 sh
    rw [assoc_sw_work, if_pos htru, hemp]
    rfl
  unfold bodyTrace
  by_cases h0 : sty.template = 0
  · rw [if_pos h0]
    exact seqChunks_isError _ perm "work" (hperm h0) _ (hwork sty false)
  · rw [if_neg h0]
    by_cases h1 : sty.template = 1
    · rw [if_pos h1]
      apply bindE_isError_left
      rw [if_pos htru, hemp]
      rfl
    · rw [if_neg h1]
      by_cases h2 : sty.template = 2
      · rw [if_pos h2]
        exact seqChunks_isError _ _ "work" (by simp) _ (hwork sty true)
      · rw [if_neg h2]
        by_cases h3 : sty.template = 3
        · rw [if_pos h3]
          apply bindE_isError_right
          intro left hleft
          apply bindE_isError_left
          exact seqChunks_isError _ _ "work" (by simp) _ (hwork sty false)
        · rw [if_neg h3]
          exact seqChunks_isError _ _ "work" (by simp) _ (hwork _ false)

/-- C4 (amended): a payload holding a truthy NUMBER where the iterated
employment-history list is required makes `cv_json_to_docx` raise for
every style draw, shuffle and template choice (the HTTP layer maps any
such exception to a client-facing error); payloads whose optional section
fields are all absent or empty never fail.  (The original claim promised a
failure for EVERY scalar-for-list payload with a section-naming error
description: a string scalar in `skills` renders successfully, see the
counterexample, and the raised errors are plain `TypeError`s carrying no
section name.) -/
theorem c4_render_error_on_scalar :
    (∀ (sty0 : Style) (perm : List String) (payload : List (String × Val))
        (topt : Option Int) (n : Int),
      pget payload "employment_history" = .num n → n ≠ 0 →
      ((applyOverride sty0 topt).template = 0 → "work" ∈ perm) →
      isErrorB (cv_json_to_docx sty0 perm payload topt) = true) ∧
    (∀ (sty0 : Style) (perm : List String) (payload : List (String × Val))
        (topt : Option Int) (hd0 : List Elem),
      headerTrace payload = .ok hd0 →
      (∀ f ∈ optionalFields, truthy (pget payload f) = false) →
      ∃ tr, cv_json_to_docx sty0 perm payload topt = .ok tr) := by
  constructor
  · intro sty0 perm payload topt n hemp hn hperm
    unfold cv_json_to_docx
    apply bindE_isError_right
    intro hd hh
    apply bindE_isError_left
    exact bodyTrace_error_employment (applyOverride sty0 topt) perm payload n hemp hn hperm
  · intro sty0 perm payload topt hd0 hh hsec
    unfold cv_json_to_docx
    rw [hh, bindE_ok]
    rcases bodyTrace_ok_empty (applyOverride sty0 topt) perm payload hsec with h2 | h2 <;>
      rw [h2, bindE_ok] <;> exact ⟨_, rfl⟩

/-- The original C4 is false: `skills` holding the scalar string `"ab"`
(a non-list in a position that is iterated and indexed) renders without
any error — the two characters become the two grid cells. -/
theorem c4_render_error_on_scalar_cex :
    cv_json_to_docx styFix [] [("skills", Val.str (lc "ab"))] (some 4) =
      .ok [Elem.nameHeading (lc "Name"), Elem.heading (lc "Skills") false false,
        Elem.table 1 2 [Elem.para (lc "• a"), Elem.para (lc "• b")]] := rfl

theorem c4_render_error_on_scalar_witness :
    isErrorB (cv_json_to_docx styFix ["work"]
      [("employment_history", Val.num 7)] (some 0)) = true ∧
    isErrorB (cv_json_to_docx styFix [] [] (some 2)) = false := by
  constructor
  · exact c4_render_error_on_scalar.1 styFix ["work"]
      [("employment_history", Val.num 7)] (some 0) 7 rfl (by decide)
      (fun _ => by simp)
  · obtain ⟨tr, htr⟩ := c4_render_error_on_scalar.2 styFix [] [] (some 2)
      [Elem.nameHeading (lc "Name")] rfl (by decide)
    rw [htr]
    rfl

end PdfApi
